import Mathlib

/-
Verification of the segment-splitting pipeline of the MidiToMusicXML
repository (splitSegments2.py), shallowly embedded over exact rationals.

Conventions of the embedding:
* Python floats are modelled as rationals (ℚ); `1e6` is `1000000`.
* Python's `int(x)` (truncation toward zero) is `truncQ`.
* A mido message is modelled by its delta-time field plus whether it is a
  `set_tempo` message carrying a new tempo; all other payload is opaque.
* `sorted(set(xs))` is modelled by insertion sort after `List.dedup`.
* Division by zero is total in ℚ (yielding 0); theorems about
  `build_tempo_map` therefore restrict attention to inputs on which the
  Python code performs no division by zero.
-/

namespace MidiSplit

/-- Python's `int()` on a rational value: truncation toward zero. -/
def truncQ (q : ℚ) : ℤ := if 0 ≤ q then ⌊q⌋ else ⌈q⌉

/-- A message of the MIDI event stream, as seen by `build_tempo_map`:
either a `set_tempo` meta message (carrying the new tempo) or any other
message; `time` is the message's delta offset (`msg.time`). -/
inductive MidiMsg where
  | setTempo (time : ℚ) (tempo : ℚ)
  | other (time : ℚ)
deriving DecidableEq

/-- The delta-time field `msg.time`. -/
def MidiMsg.time : MidiMsg → ℚ
  | .setTempo t _ => t
  | .other t => t

/-- Loop body of `build_tempo_map` (splitSegments2.py lines 51-67): walk the
message list maintaining `(cumulative_ticks, cumulative_time, current_tempo)`;
on a `set_tempo` message append the pre-change state `(cumulative_ticks,
current_tempo, cumulative_time)` and update the tempo; at the end append one
final entry for the terminal state. -/
def buildTempoMapGo (tpb : ℚ) : List MidiMsg → ℚ → ℚ → ℚ → List (ℚ × ℚ × ℚ)
  | [], cticks, ctime, ctempo => [(cticks, ctempo, ctime)]
  | .setTempo dt newTempo :: rest, cticks, ctime, ctempo =>
      (cticks + dt, ctempo, ctime + dt * ctempo / tpb / 1000000) ::
        buildTempoMapGo tpb rest (cticks + dt)
          (ctime + dt * ctempo / tpb / 1000000) newTempo
  | .other dt :: rest, cticks, ctime, ctempo =>
      buildTempoMapGo tpb rest (cticks + dt)
        (ctime + dt * ctempo / tpb / 1000000) ctempo

/-- `build_tempo_map(midi_file)` (splitSegments2.py lines 44-68): the state
starts at `(0, 0.0, 500000)`.  Entries are `(tick, tempo, cumulative_time)`
triples exactly as in the source. -/
def build_tempo_map (tpb : ℚ) (msgs : List MidiMsg) : List (ℚ × ℚ × ℚ) :=
  buildTempoMapGo tpb msgs 0 0 500000

/-- Loop body of `time_to_ticks_with_tempo_map` (lines 76-91): scan the map;
at the first entry whose cumulative time exceeds `t`, interpolate from the
state accumulated so far (`cumulative_time`, `cumulative_ticks`, and
`last_tempo`, the *previous* entry's tempo field); past the end, extrapolate
with the last state. -/
def timeToTicksGo (t tpb : ℚ) : List (ℚ × ℚ × ℚ) → ℚ → ℚ → ℚ → ℤ
  | [], ctime, cticks, ltempo =>
      truncQ (cticks + (t - ctime) * tpb * 1000000 / ltempo)
  | (tick, tempo, tct) :: rest, ctime, cticks, ltempo =>
      if t < tct then truncQ (cticks + (t - ctime) * tpb * 1000000 / ltempo)
      else timeToTicksGo t tpb rest tct tick tempo

/-- `time_to_ticks_with_tempo_map(time_in_seconds, tempo_map, ticks_per_beat)`
(lines 70-91).  `last_tempo` is initialised to `tempo_map[0][1]`. -/
def time_to_ticks_with_tempo_map (t : ℚ) (tempoMap : List (ℚ × ℚ × ℚ))
    (tpb : ℚ) : ℤ :=
  timeToTicksGo t tpb tempoMap 0 0 tempoMap.headI.2.1

/-- Python's `sorted(set(xs))`: the ascending duplicate-free list with the
same members. -/
def sortedUnique (xs : List ℚ) : List ℚ :=
  List.insertionSort (· ≤ ·) xs.dedup

/-- Lines 95-105 of `split_midi`: the split times are deduplicated and
sorted, then each one is converted to a native tick position. -/
def splitPointsTicks (splitTimes : List ℚ) (tempoMap : List (ℚ × ℚ × ℚ))
    (tpb : ℚ) : List ℤ :=
  (sortedUnique splitTimes).map
    (fun t => time_to_ticks_with_tempo_map t tempoMap tpb)

/-- Absolute positions of a track's messages (`abs_tick += msg.time`,
lines 119-123), starting from accumulator `acc`. -/
def absPositionsGo (acc : ℤ) : List ℕ → List ℤ
  | [] => []
  | d :: ds => (acc + d) :: absPositionsGo (acc + d) ds

/-- Absolute positions of a track given its list of delta times. -/
def absPositions (times : List ℕ) : List ℤ := absPositionsGo 0 times

/-- Raw per-segment contents (lines 126-146, before delta re-encoding):
segment `[b_i, b_{i+1})` consumes the not-yet-consumed messages whose
absolute position is `< b_{i+1}`; there is no lower-bound test. -/
def segmentContents : List ℤ → List ℤ → List (List ℤ)
  | _b0 :: b1 :: rest, msgs =>
      msgs.takeWhile (fun a => decide (a < b1)) ::
        segmentContents (b1 :: rest)
          (msgs.dropWhile (fun a => decide (a < b1)))
  | _, _ => []

/-- Delta re-encoding of the non-first messages of a segment: each delta is
the difference from the previous message's absolute position, clamped at 0
(lines 139-143). -/
def encodeRest (p : ℤ) : List ℤ → List ℤ
  | [] => []
  | a :: rest => max (a - p) 0 :: encodeRest a rest

/-- Delta re-encoding of a whole segment: the first message's delta is its
absolute position minus the segment start, clamped at 0 (lines 136-143). -/
def encodeSeg (s : ℤ) : List ℤ → List ℤ
  | [] => []
  | a :: rest => max (a - s) 0 :: encodeRest a rest

/-- The per-segment delta-encoded message lists of one track, exactly as
assigned by the loop of lines 126-146. -/
def assignTrack : List ℤ → List ℤ → List (List ℤ)
  | b0 :: b1 :: rest, msgs =>
      encodeSeg b0 (msgs.takeWhile (fun a => decide (a < b1))) ::
        assignTrack (b1 :: rest)
          (msgs.dropWhile (fun a => decide (a < b1)))
  | _, _ => []

/-- Reconstruction of absolute positions from a segment's delta list: the
first delta is added to the segment start, each further delta to the
previous reconstructed position. -/
def decodeSeg (s : ℤ) : List ℤ → List ℤ
  | [] => []
  | d :: ds => (s + d) :: decodeSeg (s + d) ds

/-- Reconstruction of the absolute-position sequence from all segments of a
track, using each segment's start position. -/
def reconstructTrack : List ℤ → List (List ℤ) → List ℤ
  | _b0 :: b1 :: rest, seg :: segs =>
      decodeSeg _b0 seg ++ reconstructTrack (b1 :: rest) segs
  | _, _ => []

/-- `split_midi` (lines 93-159), modelled by its written output: for every
segment index `i` in `range(num_segments)` a file `segment_{i+1}` is saved
holding, for each track, that track's delta-encoded messages of segment `i`.
The tempo map is built from the file's merged message stream; the tracks are
given by their delta-time lists.  No segment is skipped and no warning is
printed by this function. -/
def split_midi_model (splitTimes : List ℚ) (tpb : ℚ) (fileMsgs : List MidiMsg)
    (tracks : List (List ℕ)) : List (ℕ × List (List ℤ)) :=
  let tempoMap := build_tempo_map tpb fileMsgs
  let bs := splitPointsTicks splitTimes tempoMap tpb
  (List.range (bs.length - 1)).map
    (fun i => (i + 1,
      tracks.map (fun tr => (assignTrack bs (absPositions tr)).getD i [])))

/-- The data of a parsed score that the splitting code inspects: the
`duration.type` of every note or rest, the measures as (offset,
quarterLength) pairs in walk order, and the metronome marks as
(offset, getQuarterBPM result) pairs — `getQuarterBPM` may return `None`. -/
structure ScoreModel where
  noteDurationTypes : List String
  measures : List (ℚ × ℚ)
  tempoChanges : List (ℚ × Option ℚ)
deriving DecidableEq

/-- The inner `while` of lines 25-29 / 190-194: consume every tempo change
whose offset is `≤` the measure's offset, updating the current tempo when
`getQuarterBPM()` is not `None`. -/
def applyTempo (off : ℚ) : List (ℚ × Option ℚ) → ℚ → List (ℚ × Option ℚ) × ℚ
  | [], ctempo => ([], ctempo)
  | (o, nt) :: rest, ctempo =>
      if o ≤ off then applyTempo off rest (nt.getD ctempo)
      else ((o, nt) :: rest, ctempo)

/-- The tempo changes sorted by offset (line 19; Python's stable sort). -/
def sortTempoChanges (tcs : List (ℚ × Option ℚ)) : List (ℚ × Option ℚ) :=
  List.insertionSort (fun a b => a.1 ≤ b.1) tcs

/-- Measure loop of `get_precise_split_points` (lines 23-40): at measure
index `i` apply pending tempo changes, emit the running cumulative time when
`i % k == 0 and i > 0`, then advance the time by `(60 / tempo) * duration`;
after the loop the final cumulative time is appended. -/
def gpspGo (k : ℕ) : List (ℚ × ℚ) → ℕ → ℚ → ℚ → List (ℚ × Option ℚ) → List ℚ
  | [], _i, ctime, _ctempo, _tcs => [ctime]
  | (off, dur) :: rest, i, ctime, ctempo, tcs =>
      let p := applyTempo off tcs ctempo
      (if i % k = 0 ∧ 0 < i then [ctime] else []) ++
        gpspGo k rest (i + 1) (ctime + 60 / p.2 * dur) p.2 p.1

/-- `get_precise_split_points(musicxml_file, measures_per_segment)`
(lines 9-42): starts from `[0]`, default tempo 120 BPM. -/
def get_precise_split_points (k : ℕ) (measures : List (ℚ × ℚ))
    (tcs : List (ℚ × Option ℚ)) : List ℚ :=
  0 :: gpspGo k measures 0 0 120 (sortTempoChanges tcs)

/-- The same measure walk with every boundary recorded: the cumulative
real-time value before each measure, plus the final cumulative time.  This
is the claims' list `b_0, b_1, ..., b_n` of measure-boundary times. -/
def boundariesGo : List (ℚ × ℚ) → ℚ → ℚ → List (ℚ × Option ℚ) → List ℚ
  | [], ctime, _ctempo, _tcs => [ctime]
  | (off, dur) :: rest, ctime, ctempo, tcs =>
      let p := applyTempo off tcs ctempo
      ctime :: boundariesGo rest (ctime + 60 / p.2 * dur) p.2 p.1

/-- The cumulative boundary times of a score's measure walk. -/
def measureBoundaries (measures : List (ℚ × ℚ))
    (tcs : List (ℚ × Option ℚ)) : List ℚ :=
  boundariesGo measures 0 120 (sortTempoChanges tcs)

/-- `split_musicxml` (lines 162-222), modelled by its observable output:
the printed warnings and the list of segment numbers for which a write is
attempted.  If any note or rest has duration type `2048th`, a warning is
printed and the function returns with no segment written; otherwise one
segment per index of `range(len(split_points) - 1)` is written (the
per-segment measure extraction and file writing are external music21
operations; a write failure is caught per segment). -/
def split_musicxml_model (score : ScoreModel) (splitPoints : List ℚ) :
    List String × List ℕ :=
  if score.noteDurationTypes.any (fun s => s == "2048th") then
    (["Warning: Found 2048th note. Skipping this file."], [])
  else
    ([], (List.range (splitPoints.length - 1)).map (fun i => i + 1))

/-- Lines 260-263 of `process_directory`: compute the split points from the
score, run `split_musicxml` on them, then run `split_midi` on the same
points.  The result pairs the notation-side output (warnings, written
segment numbers) with the MIDI-side written segments. -/
def process_pair (score : ScoreModel) (k : ℕ) (tpb : ℚ)
    (fileMsgs : List MidiMsg) (tracks : List (List ℕ)) :
    (List String × List ℕ) × List (ℕ × List (List ℤ)) :=
  let pts := get_precise_split_points k score.measures score.tempoChanges
  (split_musicxml_model score pts, split_midi_model pts tpb fileMsgs tracks)

/-- Well-formedness of a tempo map tail relative to the scan state
`(ctime, cticks, ltempo)` of `timeToTicksGo`: positive tempos that never
increase from entry to entry, non-decreasing cumulative times, and each
entry's tick consistent with its own tempo over the preceding span — the
relation `build_tempo_map` establishes between consecutive entries. -/
def TMWf (tpb : ℚ) : List (ℚ × ℚ × ℚ) → ℚ → ℚ → ℚ → Prop
  | [], _ctime, _cticks, ltempo => 0 < ltempo
  | (tick, tempo, tct) :: rest, ctime, cticks, ltempo =>
      0 < ltempo ∧ 0 < tempo ∧ tempo ≤ ltempo ∧ ctime ≤ tct ∧
        tick = cticks + (tct - ctime) * tpb * 1000000 / tempo ∧
        TMWf tpb rest tct tick tempo

/-- The running state of the tempo-map fold described by the specification:
the accumulated entries together with the
`(cumulativeTicks, cumulativeTime, currentTempo)` triple. -/
structure TMState where
  entries : List (ℚ × ℚ × ℚ)
  cumulativeTicks : ℚ
  cumulativeTime : ℚ
  currentTempo : ℚ
deriving DecidableEq

/-- One step of the specification's fold: advance `cumulativeTime` by
`deltaTicks * currentTempo / ticksPerBeat / 1e6`; at a tempo change append
an entry capturing the pre-change cumulative state, then update the tempo. -/
def tmStep (tpb : ℚ) (s : TMState) (msg : MidiMsg) : TMState :=
  match msg with
  | .setTempo dt newTempo =>
      ⟨s.entries ++ [(s.cumulativeTicks + dt, s.currentTempo,
          s.cumulativeTime + dt * s.currentTempo / tpb / 1000000)],
        s.cumulativeTicks + dt,
        s.cumulativeTime + dt * s.currentTempo / tpb / 1000000, newTempo⟩
  | .other dt =>
      ⟨s.entries, s.cumulativeTicks + dt,
        s.cumulativeTime + dt * s.currentTempo / tpb / 1000000,
        s.currentTempo⟩

/-- Tempo-map construction as the specification words it: a fold of `tmStep`
over the event stream starting from `([], 0, 0.0, 500000)`, with one final
entry for the terminal state always appended. -/
def buildTempoMapSpec (tpb : ℚ) (msgs : List MidiMsg) : List (ℚ × ℚ × ℚ) :=
  let s := msgs.foldl (tmStep tpb) ⟨[], 0, 0, 500000⟩
  s.entries ++ [(s.cumulativeTicks, s.currentTempo, s.cumulativeTime)]

end MidiSplit

namespace MidiSplit

/- ### Helper lemmas -/

theorem truncQ_mono {a b : ℚ} (h : a ≤ b) : truncQ a ≤ truncQ b := by
  unfold truncQ
  by_cases ha : 0 ≤ a
  · rw [if_pos ha, if_pos (le_trans ha h)]
    exact Int.floor_le_floor h
  · rw [if_neg ha]
    by_cases hb : 0 ≤ b
    · rw [if_pos hb]
      calc ⌈a⌉ ≤ ⌈(0 : ℚ)⌉ := Int.ceil_le_ceil (le_of_not_le ha)
        _ = 0 := by norm_num
        _ ≤ ⌊b⌋ := Int.le_floor.2 (by exact_mod_cast hb)
    · rw [if_neg hb]
      exact Int.ceil_le_ceil h

theorem buildTempoMapGo_ne_nil (tpb : ℚ) :
    ∀ (msgs : List MidiMsg) (a b c : ℚ), buildTempoMapGo tpb msgs a b c ≠ [] := by
  intro msgs
  induction msgs with
  | nil => intro a b c; simp [buildTempoMapGo]
  | cons m rest ih =>
    intro a b c
    cases m with
    | setTempo dt nt => simp [buildTempoMapGo]
    | other dt => simp only [buildTempoMapGo]; exact ih _ _ _

theorem btm_spec_go (tpb : ℚ) :
    ∀ (msgs : List MidiMsg) (E : List (ℚ × ℚ × ℚ)) (a b c : ℚ),
      (List.foldl (tmStep tpb) ⟨E, a, b, c⟩ msgs).entries ++
        [((List.foldl (tmStep tpb) ⟨E, a, b, c⟩ msgs).cumulativeTicks,
          (List.foldl (tmStep tpb) ⟨E, a, b, c⟩ msgs).currentTempo,
          (List.foldl (tmStep tpb) ⟨E, a, b, c⟩ msgs).cumulativeTime)] =
      E ++ buildTempoMapGo tpb msgs a b c := by
  intro msgs
  induction msgs with
  | nil => intro E a b c; simp [buildTempoMapGo]
  | cons m rest ih =>
    intro E a b c
    cases m with
    | setTempo dt nt =>
      simp only [List.foldl_cons, tmStep, buildTempoMapGo]
      rw [ih]
      simp
    | other dt =>
      simp only [List.foldl_cons, tmStep, buildTempoMapGo]
      rw [ih]

/- ### C4 -/

/-- C4: `build_tempo_map` is the fold that starts from
`(cumulativeTicks = 0, cumulativeTime = 0.0, currentTempo = 500000)`,
advances the cumulative time by `deltaTicks * currentTempo / tpb / 1e6` per
event, appends an entry capturing the pre-change cumulative state at every
tempo-change event before updating the tempo, and always appends one final
entry for the terminal state, so the returned map is never empty. -/
theorem build_tempo_map_is_spec_fold (tpb : ℚ) (msgs : List MidiMsg) :
    build_tempo_map tpb msgs = buildTempoMapSpec tpb msgs ∧
      build_tempo_map tpb msgs ≠ [] := by
  constructor
  · have h := btm_spec_go tpb msgs [] 0 0 500000
    simpa [build_tempo_map, buildTempoMapSpec] using h.symm
  · exact buildTempoMapGo_ne_nil tpb msgs 0 0 500000

end MidiSplit

namespace MidiSplit

/- ### Counterexamples established by direct evaluation -/

/-- C1 counterexample: on the tempo map that `build_tempo_map` produces for a
stream with one tempo increase (500000 → 1000000 µs/beat at tick 0, one more
message 960 ticks later; ticks-per-beat 480) — a map with non-decreasing
cumulative times and positive tempo values — the conversion is not monotone:
`1.9 ≤ 2`, but time 2 converts to tick 960 while time 1.9 converts to
tick 1824. -/
theorem time_to_ticks_not_monotone_counterexample :
    build_tempo_map 480 [MidiMsg.setTempo 0 1000000, MidiMsg.other 960] =
        [(0, 500000, 0), (960, 1000000, 2)] ∧
      (19 / 10 : ℚ) ≤ 2 ∧
      time_to_ticks_with_tempo_map (19 / 10)
          [(0, 500000, 0), (960, 1000000, 2)] 480 = 1824 ∧
      time_to_ticks_with_tempo_map 2
          [(0, 500000, 0), (960, 1000000, 2)] 480 = 960 := by
  refine ⟨?_, by norm_num, ?_, ?_⟩ <;>
    norm_num [build_tempo_map, buildTempoMapGo, time_to_ticks_with_tempo_map,
      timeToTicksGo, truncQ]

/-- C6 counterexample: the native tick list used by `split_midi` is not
deduplicated after conversion — the distinct split times 0 and 1/2000 s both
truncate to tick 0 (tempo map with a single default entry, 480 ticks per
beat), so the tick-position list is `[0, 0]`, which contains a duplicate and
is not strictly increasing. -/
theorem split_points_ticks_duplicates_counterexample :
    splitPointsTicks [0, 1 / 2000] [(0, 500000, 0)] 480 = [0, 0] ∧
      ¬ List.Chain' (· < ·) ([0, 0] : List ℤ) := by
  constructor
  · norm_num [splitPointsTicks, sortedUnique, List.dedup_cons_of_not_mem,
      List.insertionSort, List.orderedInsert, time_to_ticks_with_tempo_map,
      timeToTicksGo, truncQ]
  · simp

/-- C7 counterexample: the last segment is *not* closed on the right.  With
split times `[0, 1]` (tick boundaries `[0, 960]`) and a single track whose
only event sits exactly at the final boundary position 960, `split_midi`
assigns the event to no segment: the one saved segment is empty on every
track. -/
theorem last_segment_open_counterexample :
    split_midi_model [0, 1] 480 [] [[960]] = [(1, [[]])] := by
  norm_num [split_midi_model, splitPointsTicks, sortedUnique,
    List.dedup_cons_of_not_mem, List.insertionSort, List.orderedInsert,
    build_tempo_map, buildTempoMapGo, time_to_ticks_with_tempo_map,
    timeToTicksGo, truncQ, absPositions, absPositionsGo, assignTrack,
    encodeSeg, encodeRest, List.range, List.range.loop]

/-- C8 counterexample: a segment whose event list is empty on every channel
is *not* excluded from the written output, and `split_midi` emits no
warning.  With split times `[0, 1, 2]` and one track whose only event is at
tick 1000, segment 1 (window `[0, 960)`) is empty on every track yet is
still saved, numbered 1, before segment 2 which holds the event. -/
theorem empty_segment_written_counterexample :
    split_midi_model [0, 1, 2] 480 [] [[1000]] =
      [(1, [[]]), (2, [[40]])] := by
  norm_num [split_midi_model, splitPointsTicks, sortedUnique,
    List.dedup_cons_of_not_mem, List.insertionSort, List.orderedInsert,
    build_tempo_map, buildTempoMapGo, time_to_ticks_with_tempo_map,
    timeToTicksGo, truncQ, absPositions, absPositionsGo, assignTrack,
    encodeSeg, encodeRest, List.range, List.range.loop]

/-- C9 counterexample: `build_tempo_map` performs no ticks-per-beat
validation and raises no `MalformedTempoData`: with the negative
ticks-per-beat −480 and one message it succeeds, returning a (nonsensical)
map with negative cumulative time, and with ticks-per-beat 0 and an empty
stream it also succeeds with the default map. -/
theorem build_tempo_map_no_validation_counterexample :
    build_tempo_map (-480) [MidiMsg.other 960] = [(960, 500000, -1)] ∧
      build_tempo_map 0 [] = [(0, 500000, 0)] := by
  norm_num [build_tempo_map, buildTempoMapGo]

/-- C5 counterexample: processed with the same split-point list
`[0, 1/2, 1/2]` (computed from a 2-measure score whose second measure has
duration 0, one measure per segment), `split_musicxml` writes 2 segments
while `split_midi` — which deduplicates the times — writes only 1, and the
notation side prints no warning: the mismatch is silent. -/
theorem segment_count_mismatch_counterexample :
    get_precise_split_points 1 [(0, 1), (1, 0)] [] = [0, 1 / 2, 1 / 2] ∧
      ((process_pair (ScoreModel.mk [] [(0, 1), (1, 0)] []) 1 480 [] [[0]]).1.2).length = 2 ∧
      ((process_pair (ScoreModel.mk [] [(0, 1), (1, 0)] []) 1 480 [] [[0]]).2).length = 1 ∧
      (process_pair (ScoreModel.mk [] [(0, 1), (1, 0)] []) 1 480 [] [[0]]).1.1 = [] := by
  refine ⟨?_, ?_⟩
  · norm_num [get_precise_split_points, gpspGo, applyTempo, sortTempoChanges,
      List.insertionSort]
  · norm_num [process_pair, split_musicxml_model, split_midi_model,
      get_precise_split_points, gpspGo, applyTempo, sortTempoChanges,
      splitPointsTicks, sortedUnique, List.dedup_cons_of_not_mem,
      List.dedup_cons_of_mem, List.insertionSort, List.orderedInsert,
      build_tempo_map, buildTempoMapGo, time_to_ticks_with_tempo_map,
      timeToTicksGo, truncQ, absPositions, absPositionsGo, assignTrack,
      encodeSeg, encodeRest, List.range, List.range.loop]

end MidiSplit

namespace MidiSplit

/- ### C1: conditional monotonicity of the time → tick conversion -/

theorem timeToTicksGo_lower (tpb : ℚ) (htpb : 0 < tpb) :
    ∀ (l : List (ℚ × ℚ × ℚ)) (ctime cticks ltempo : ℚ),
      TMWf tpb l ctime cticks ltempo → ∀ t, ctime ≤ t →
        truncQ cticks ≤ timeToTicksGo t tpb l ctime cticks ltempo := by
  intro l
  induction l with
  | nil =>
    intro ctime cticks ltempo hwf t ht
    simp only [TMWf] at hwf
    simp only [timeToTicksGo]
    apply truncQ_mono
    have h0 : 0 ≤ (t - ctime) * tpb * 1000000 / ltempo :=
      div_nonneg
        (mul_nonneg (mul_nonneg (sub_nonneg.2 ht) htpb.le) (by norm_num))
        hwf.le
    linarith
  | cons e rest ih =>
    obtain ⟨tick, tempo, tct⟩ := e
    intro ctime cticks ltempo hwf t ht
    simp only [TMWf] at hwf
    obtain ⟨hlt, htpos, hle, hct, htick, hrest⟩ := hwf
    simp only [timeToTicksGo]
    by_cases hc : t < tct
    · rw [if_pos hc]
      apply truncQ_mono
      have h0 : 0 ≤ (t - ctime) * tpb * 1000000 / ltempo :=
        div_nonneg
          (mul_nonneg (mul_nonneg (sub_nonneg.2 ht) htpb.le) (by norm_num))
          hlt.le
      linarith
    · rw [if_neg hc]
      have h2 : truncQ cticks ≤ truncQ tick := by
        apply truncQ_mono
        rw [htick]
        have h0 : 0 ≤ (tct - ctime) * tpb * 1000000 / tempo :=
          div_nonneg
            (mul_nonneg (mul_nonneg (sub_nonneg.2 hct) htpb.le) (by norm_num))
            htpos.le
        linarith
      exact le_trans h2 (ih tct tick tempo hrest t (le_of_not_lt hc))

theorem timeToTicksGo_mono (tpb : ℚ) (htpb : 0 < tpb) :
    ∀ (l : List (ℚ × ℚ × ℚ)) (ctime cticks ltempo : ℚ),
      TMWf tpb l ctime cticks ltempo → ∀ t1 t2, t1 ≤ t2 →
        timeToTicksGo t1 tpb l ctime cticks ltempo ≤
          timeToTicksGo t2 tpb l ctime cticks ltempo := by
  intro l
  induction l with
  | nil =>
    intro ctime cticks ltempo hwf t1 t2 h12
    simp only [TMWf] at hwf
    simp only [timeToTicksGo]
    apply truncQ_mono
    have h0 : (t1 - ctime) * tpb * 1000000 / ltempo ≤
        (t2 - ctime) * tpb * 1000000 / ltempo := by
      apply (div_le_div_iff_of_pos_right hwf).2
      exact mul_le_mul_of_nonneg_right
        (mul_le_mul_of_nonneg_right (by linarith) htpb.le) (by norm_num)
    linarith
  | cons e rest ih =>
    obtain ⟨tick, tempo, tct⟩ := e
    intro ctime cticks ltempo hwf t1 t2 h12
    simp only [TMWf] at hwf
    obtain ⟨hlt, htpos, hle, hct, htick, hrest⟩ := hwf
    simp only [timeToTicksGo]
    by_cases hc1 : t1 < tct
    · rw [if_pos hc1]
      by_cases hc2 : t2 < tct
      · rw [if_pos hc2]
        apply truncQ_mono
        have h0 : (t1 - ctime) * tpb * 1000000 / ltempo ≤
            (t2 - ctime) * tpb * 1000000 / ltempo := by
          apply (div_le_div_iff_of_pos_right hlt).2
          exact mul_le_mul_of_nonneg_right
            (mul_le_mul_of_nonneg_right (by linarith) htpb.le) (by norm_num)
        linarith
      · rw [if_neg hc2]
        have hchain :
            truncQ (cticks + (t1 - ctime) * tpb * 1000000 / ltempo) ≤
              truncQ tick := by
          apply truncQ_mono
          rw [htick]
          have e1 : (t1 - ctime) * tpb * 1000000 / ltempo ≤
              (tct - ctime) * tpb * 1000000 / ltempo := by
            apply (div_le_div_iff_of_pos_right hlt).2
            exact mul_le_mul_of_nonneg_right
              (mul_le_mul_of_nonneg_right (by linarith [hc1.le]) htpb.le)
              (by norm_num)
          have e2 : (tct - ctime) * tpb * 1000000 / ltempo ≤
              (tct - ctime) * tpb * 1000000 / tempo := by
            rcases eq_or_lt_of_le (sub_nonneg.2 hct) with h | h
            · rw [← h]
              simp
            · have hnum : 0 < (tct - ctime) * tpb * 1000000 :=
                mul_pos (mul_pos h htpb) (by norm_num)
              gcongr
          linarith
        exact le_trans hchain
          (timeToTicksGo_lower tpb htpb rest tct tick tempo hrest t2
            (le_of_not_lt hc2))
    · have hc2 : ¬ t2 < tct := fun hc => hc1 (lt_of_le_of_lt h12 hc)
      rw [if_neg hc1, if_neg hc2]
      exact ih tct tick tempo hrest t1 t2 h12

/-- C1 amended: on a positive ticks-per-beat and a tempo map whose entries
are consistent with the relation `build_tempo_map` establishes (positive
tempos, non-decreasing cumulative times, each tick the image of its own
span) and whose tempo values never increase from entry to entry, the
conversion `time_to_ticks_with_tempo_map` is monotone: `t1 ≤ t2` implies
`convert t1 ≤ convert t2`.  (The function is deterministic and truncates
toward zero by construction; on maps containing a tempo increase the
counterexample shows monotonicity fails.) -/
theorem time_to_ticks_monotone_of_wf (tempoMap : List (ℚ × ℚ × ℚ)) (tpb : ℚ)
    (htpb : 0 < tpb) (hwf : TMWf tpb tempoMap 0 0 tempoMap.headI.2.1)
    (t1 t2 : ℚ) (h : t1 ≤ t2) :
    time_to_ticks_with_tempo_map t1 tempoMap tpb ≤
      time_to_ticks_with_tempo_map t2 tempoMap tpb :=
  timeToTicksGo_mono tpb htpb tempoMap 0 0 _ hwf t1 t2 h

/-- C1 witness: the hypotheses of `time_to_ticks_monotone_of_wf` hold for
the map `build_tempo_map` produces from two constant-tempo changes
(500000 → 500000 → 400000 µs/beat), and the conversion is monotone there. -/
theorem time_to_ticks_monotone_witness :
    (0 : ℚ) < 480 ∧
      TMWf 480 [(960, 500000, 1), (1920, 500000, 2), (1920, 400000, 2)] 0 0
        (([(960, 500000, 1), (1920, 500000, 2), (1920, 400000, 2)] :
          List (ℚ × ℚ × ℚ)).headI.2.1) ∧
      (1 / 2 : ℚ) ≤ 3 / 2 ∧
      time_to_ticks_with_tempo_map (1 / 2)
          [(960, 500000, 1), (1920, 500000, 2), (1920, 400000, 2)] 480 ≤
        time_to_ticks_with_tempo_map (3 / 2)
          [(960, 500000, 1), (1920, 500000, 2), (1920, 400000, 2)] 480 :=
  ⟨by norm_num, by norm_num [TMWf, List.headI], by norm_num,
    time_to_ticks_monotone_of_wf
      [(960, 500000, 1), (1920, 500000, 2), (1920, 400000, 2)] 480
      (by norm_num) (by norm_num [TMWf, List.headI]) (1 / 2) (3 / 2)
      (by norm_num)⟩

end MidiSplit

namespace MidiSplit

/- ### C2: round-trip coverage of the per-track segment encoding -/

theorem decodeSeg_encodeRest :
    ∀ (l : List ℤ) (p : ℤ), (∀ y ∈ l.head?, p ≤ y) →
      List.Chain' (· ≤ ·) l → decodeSeg p (encodeRest p l) = l := by
  intro l
  induction l with
  | nil => intro p _ _; rfl
  | cons a t ih =>
    intro p hp hch
    have hpa : p ≤ a := hp a (by simp)
    simp only [encodeRest, decodeSeg]
    rw [max_eq_left (sub_nonneg.2 hpa)]
    have h1 : p + (a - p) = a := by ring
    obtain ⟨hhd, htl⟩ := List.chain'_cons'.1 hch
    rw [h1, ih a hhd htl]

theorem decodeSeg_encodeSeg (s : ℤ) (l : List ℤ)
    (hch : List.Chain' (· ≤ ·) l) (hhead : ∀ a ∈ l.head?, s ≤ a) :
    decodeSeg s (encodeSeg s l) = l := by
  cases l with
  | nil => rfl
  | cons a t =>
    have hsa : s ≤ a := hhead a (by simp)
    simp only [encodeSeg, decodeSeg]
    rw [max_eq_left (sub_nonneg.2 hsa)]
    have h1 : s + (a - s) = a := by ring
    obtain ⟨hhd, htl⟩ := List.chain'_cons'.1 hch
    rw [h1, decodeSeg_encodeRest t a hhd htl]

theorem head?_takeWhile_imp (p : ℤ → Bool) (l : List ℤ) :
    ∀ a ∈ (l.takeWhile p).head?, a ∈ l.head? := by
  cases l with
  | nil => simp
  | cons x xs =>
    by_cases h : p x <;> simp [List.takeWhile_cons, h]

theorem head?_dropWhile_false (p : ℤ → Bool) :
    ∀ (l : List ℤ), ∀ a ∈ (l.dropWhile p).head?, p a = false := by
  intro l
  induction l with
  | nil => simp
  | cons x xs ih =>
    by_cases h : p x
    · simpa [List.dropWhile_cons, h] using ih
    · simp [List.dropWhile_cons, h]

theorem absPositionsGo_le (times : List ℕ) :
    ∀ (acc : ℤ), ∀ x ∈ absPositionsGo acc times, acc ≤ x := by
  induction times with
  | nil => intro acc x hx; simp [absPositionsGo] at hx
  | cons d ds ih =>
    intro acc x hx
    simp only [absPositionsGo, List.mem_cons] at hx
    rcases hx with rfl | hx
    · simp
    · have h1 := ih (acc + d) x hx
      have hd : (0 : ℤ) ≤ (d : ℤ) := Int.ofNat_nonneg d
      linarith

theorem absPositionsGo_sorted (times : List ℕ) :
    ∀ (acc : ℤ), List.Sorted (· ≤ ·) (absPositionsGo acc times) := by
  induction times with
  | nil => intro acc; simp [absPositionsGo]
  | cons d ds ih =>
    intro acc
    simp only [absPositionsGo]
    exact List.sorted_cons.2 ⟨fun b hb => absPositionsGo_le ds (acc + d) b hb,
      ih (acc + d)⟩

/-- The absolute positions of a track are non-decreasing (delta times are
non-negative). -/
theorem absPositions_sorted (times : List ℕ) :
    List.Sorted (· ≤ ·) (absPositions times) :=
  absPositionsGo_sorted times 0

theorem reconstruct_assign :
    ∀ (bs : List ℤ) (l : List ℤ), List.Sorted (· ≤ ·) l →
      (∀ a ∈ l.head?, bs.headI ≤ a) →
      reconstructTrack bs (assignTrack bs l) =
        (segmentContents bs l).flatten := by
  intro bs
  induction bs with
  | nil => intro l _ _; rfl
  | cons b0 tl ih =>
    cases tl with
    | nil => intro l _ _; rfl
    | cons b1 rest =>
      intro l hl h0
      simp only [assignTrack, segmentContents, reconstructTrack,
        List.flatten_cons]
      congr 1
      · apply decodeSeg_encodeSeg
        · exact (List.Pairwise.sublist (List.takeWhile_sublist _) hl).chain'
        · intro a ha
          have h1 := head?_takeWhile_imp _ l a ha
          simpa using h0 a h1
      · apply ih
        · exact List.Pairwise.sublist (List.dropWhile_sublist _) hl
        · intro a ha
          have hpf := head?_dropWhile_false (fun a => decide (a < b1)) l a ha
          simp only [List.headI]
          have h2 : ¬ (a < b1) := by simpa using hpf
          linarith

/-- C2: for every tick-boundary list and every track (given by its
non-negative delta times) whose first event lies at or after the first
boundary — so the non-negative clamp never fires — concatenating the
segments written by `split_midi` and reconstructing absolute positions
(each segment's first offset added to that segment's start position, each
later offset added to the previous event's position) reproduces exactly the
original absolute positions of the events that fall in some segment window;
events in no window are the only ones missing. -/
theorem roundtrip_coverage (bs : List ℤ) (times : List ℕ)
    (h0 : ∀ a ∈ (absPositions times).head?, bs.headI ≤ a) :
    reconstructTrack bs (assignTrack bs (absPositions times)) =
      (segmentContents bs (absPositions times)).flatten :=
  reconstruct_assign bs (absPositions times) (absPositions_sorted times) h0

/-- C2 witness: boundaries `[0, 960, 1920]`, track deltas
`[100, 800, 1100]` (absolute positions `[100, 900, 2000]`). -/
theorem roundtrip_coverage_witness :
    (∀ a ∈ (absPositions [100, 800, 1100]).head?,
        ([0, 960, 1920] : List ℤ).headI ≤ a) ∧
      reconstructTrack [0, 960, 1920]
          (assignTrack [0, 960, 1920] (absPositions [100, 800, 1100])) =
        (segmentContents [0, 960, 1920] (absPositions [100, 800, 1100])).flatten :=
  ⟨by decide, roundtrip_coverage [0, 960, 1920] [100, 800, 1100] (by decide)⟩

end MidiSplit

namespace MidiSplit

/- ### C3: which boundary values get_precise_split_points selects -/

theorem boundariesGo_ne_nil (ms : List (ℚ × ℚ)) (ct cte : ℚ)
    (tcs : List (ℚ × Option ℚ)) : boundariesGo ms ct cte tcs ≠ [] := by
  cases ms with
  | nil => simp [boundariesGo]
  | cons m rest =>
    obtain ⟨off, dur⟩ := m
    simp [boundariesGo]

theorem getLastD_of_ne_nil {α : Type} :
    ∀ (l : List α), l ≠ [] → ∀ (a b : α), l.getLastD a = l.getLastD b := by
  intro l
  induction l with
  | nil => intro h; exact absurd rfl h
  | cons x xs ih =>
    intro _ a b
    cases xs with
    | nil => rfl
    | cons y ys =>
      rw [List.getLastD_cons a x (y :: ys), List.getLastD_cons b x (y :: ys)]

theorem gpspGo_eq_select (k : ℕ) :
    ∀ (ms : List (ℚ × ℚ)) (i : ℕ) (ct cte : ℚ) (tcs : List (ℚ × Option ℚ)),
      gpspGo k ms i ct cte tcs =
        ((List.range' i ms.length).filter
            (fun j => decide (j % k = 0 ∧ 0 < j))).map
            (fun j => (boundariesGo ms ct cte tcs).getD (j - i) 0) ++
          [(boundariesGo ms ct cte tcs).getLastD 0] := by
  intro ms
  induction ms with
  | nil =>
    intro i ct cte tcs
    simp [gpspGo, boundariesGo]
  | cons m rest ih =>
    obtain ⟨off, dur⟩ := m
    intro i ct cte tcs
    simp only [gpspGo, boundariesGo, List.length_cons, List.range'_succ,
      List.filter_cons]
    rw [ih (i + 1) (ct + 60 / (applyTempo off tcs cte).2 * dur)
      (applyTempo off tcs cte).2 (applyTempo off tcs cte).1]
    have hB' : boundariesGo rest (ct + 60 / (applyTempo off tcs cte).2 * dur)
        (applyTempo off tcs cte).2 (applyTempo off tcs cte).1 ≠ [] :=
      boundariesGo_ne_nil _ _ _ _
    have hmap :
        (((List.range' (i + 1) rest.length).filter
            (fun j => decide (j % k = 0 ∧ 0 < j))).map
          (fun j =>
            (ct :: boundariesGo rest
                (ct + 60 / (applyTempo off tcs cte).2 * dur)
                (applyTempo off tcs cte).2 (applyTempo off tcs cte).1).getD
              (j - i) 0)) =
        ((List.range' (i + 1) rest.length).filter
            (fun j => decide (j % k = 0 ∧ 0 < j))).map
          (fun j =>
            (boundariesGo rest (ct + 60 / (applyTempo off tcs cte).2 * dur)
                (applyTempo off tcs cte).2 (applyTempo off tcs cte).1).getD
              (j - (i + 1)) 0) := by
      apply List.map_congr_left
      intro j hj
      have hjr : i + 1 ≤ j := (List.mem_range'_1.1 (List.mem_of_mem_filter hj)).1
      have hji : j - i = (j - (i + 1)) + 1 := by omega
      rw [hji, List.getD_cons_succ]
    have hlast :
        (ct :: boundariesGo rest (ct + 60 / (applyTempo off tcs cte).2 * dur)
            (applyTempo off tcs cte).2 (applyTempo off tcs cte).1).getLastD 0 =
        (boundariesGo rest (ct + 60 / (applyTempo off tcs cte).2 * dur)
            (applyTempo off tcs cte).2 (applyTempo off tcs cte).1).getLastD 0 := by
      rw [List.getLastD_cons 0 ct _]
      exact getLastD_of_ne_nil _ hB' ct 0
    by_cases hcond : i % k = 0 ∧ 0 < i
    · rw [if_pos hcond, if_pos (decide_eq_true hcond), List.map_cons]
      simp only [Nat.sub_self, List.getD_cons_zero]
      rw [hmap, hlast]
      simp
    · rw [if_neg hcond, if_neg (by simpa using hcond)]
      rw [hmap, hlast]
      simp

end MidiSplit

namespace MidiSplit

/-- C3: for every non-empty measure list and positive measures-per-segment
`k`, `get_precise_split_points` returns exactly the boundary values of the
measure walk at the measure indices divisible by `k` (index 0 included),
followed by the final boundary — the latter appended even when the measure
count is not a multiple of `k`. -/
theorem gpsp_selects_boundary_multiples (k : ℕ) (measures : List (ℚ × ℚ))
    (tcs : List (ℚ × Option ℚ)) (_hk : 0 < k) (hm : measures ≠ []) :
    get_precise_split_points k measures tcs =
      ((List.range measures.length).filter (fun j => decide (j % k = 0))).map
          (fun j => (measureBoundaries measures tcs).getD j 0) ++
        [(measureBoundaries measures tcs).getLastD 0] := by
  obtain ⟨m, ms', rfl⟩ : ∃ m ms', measures = m :: ms' := by
    cases measures with
    | nil => exact absurd rfl hm
    | cons m ms' => exact ⟨m, ms', rfl⟩
  obtain ⟨off, dur⟩ := m
  show 0 :: gpspGo k ((off, dur) :: ms') 0 0 120 (sortTempoChanges tcs) = _
  rw [gpspGo_eq_select]
  have h1 : decide ((0 : ℕ) % k = 0 ∧ 0 < 0) = false := by simp
  have h2 : decide ((0 : ℕ) % k = 0) = true := by simp
  have hfc : (List.range' 1 ms'.length).filter
        (fun j => decide (j % k = 0 ∧ 0 < j)) =
      (List.range' 1 ms'.length).filter (fun j => decide (j % k = 0)) := by
    apply List.filter_congr
    intro j hj
    have hj1 : 1 ≤ j := (List.mem_range'_1.1 hj).1
    rw [decide_eq_decide]
    exact ⟨fun h => h.1, fun h => ⟨h, by omega⟩⟩
  have hB0 : (boundariesGo ((off, dur) :: ms') 0 120
      (sortTempoChanges tcs)).getD 0 0 = 0 := by
    simp [boundariesGo]
  simp only [measureBoundaries, Nat.sub_zero, List.range_eq_range',
    List.length_cons, List.range'_succ, List.filter_cons, h1, h2, hfc,
    Bool.false_eq_true, if_false, if_true, List.map_cons, hB0]
  simp

end MidiSplit

namespace MidiSplit

/-- C3 witness: the 9-measure score (one quarter note per measure, default
tempo) with `measuresPerSegment = 4`: the selected boundaries are those at
measure indices 0, 4, 8 plus the final boundary (index 9), giving the four
split points `[0, 2, 4, 4.5]`, i.e. 3 segments with the last spanning
exactly one measure. -/
theorem gpsp_selects_boundary_multiples_witness :
    0 < 4 ∧
      ([((0 : ℚ), (1 : ℚ)), (1, 1), (2, 1), (3, 1), (4, 1), (5, 1), (6, 1),
          (7, 1), (8, 1)] : List (ℚ × ℚ)) ≠ [] ∧
      get_precise_split_points 4
          [(0, 1), (1, 1), (2, 1), (3, 1), (4, 1), (5, 1), (6, 1), (7, 1),
            (8, 1)] [] = [0, 2, 4, 9 / 2] ∧
      get_precise_split_points 4
          [(0, 1), (1, 1), (2, 1), (3, 1), (4, 1), (5, 1), (6, 1), (7, 1),
            (8, 1)] [] =
        ((List.range
            ([((0 : ℚ), (1 : ℚ)), (1, 1), (2, 1), (3, 1), (4, 1), (5, 1),
              (6, 1), (7, 1), (8, 1)] : List (ℚ × ℚ)).length).filter
            (fun j => decide (j % 4 = 0))).map
            (fun j =>
              (measureBoundaries
                  [(0, 1), (1, 1), (2, 1), (3, 1), (4, 1), (5, 1), (6, 1),
                    (7, 1), (8, 1)] []).getD j 0) ++
          [(measureBoundaries
              [(0, 1), (1, 1), (2, 1), (3, 1), (4, 1), (5, 1), (6, 1),
                (7, 1), (8, 1)] []).getLastD 0] :=
  ⟨by norm_num, by simp,
    by norm_num [get_precise_split_points, gpspGo, applyTempo,
      sortTempoChanges, List.insertionSort],
    gpsp_selects_boundary_multiples 4
      [(0, 1), (1, 1), (2, 1), (3, 1), (4, 1), (5, 1), (6, 1), (7, 1), (8, 1)]
      [] (by norm_num) (by simp)⟩

/- ### C6 amended: dedup/sort happen on the times, before conversion -/

/-- C6 amended: `split_midi` deduplicates and sorts the *real-time* split
points before conversion — the time list actually used is strictly
increasing — and the native tick list is its pointwise image under
`time_to_ticks_with_tempo_map` (which, by the counterexample, may contain
duplicate tick values). -/
theorem split_times_sorted_before_conversion (splitTimes : List ℚ)
    (tempoMap : List (ℚ × ℚ × ℚ)) (tpb : ℚ) :
    List.Chain' (· < ·) (sortedUnique splitTimes) ∧
      splitPointsTicks splitTimes tempoMap tpb =
        (sortedUnique splitTimes).map
          (fun t => time_to_ticks_with_tempo_map t tempoMap tpb) := by
  constructor
  · have hs : List.Sorted (· ≤ ·) (sortedUnique splitTimes) :=
      List.sorted_insertionSort (· ≤ ·) splitTimes.dedup
    have hnd : (sortedUnique splitTimes).Nodup :=
      (List.perm_insertionSort (· ≤ ·) splitTimes.dedup).nodup_iff.2
        splitTimes.nodup_dedup
    have hlt : List.Pairwise (· < ·) (sortedUnique splitTimes) := by
      have hcomb := List.Pairwise.and hs hnd
      exact hcomb.imp (fun h => lt_of_le_of_ne h.1 h.2)
    exact hlt.chain'
  · rfl

/- ### C8 amended: every segment is written, with consecutive indices -/

/-- C8 amended: `split_midi` excludes no segment and emits no warning: for
every input, the written segments are exactly the indices
`1, 2, ..., num_segments` in order, regardless of which segments are empty
on every channel. -/
theorem all_segments_written (splitTimes : List ℚ) (tpb : ℚ)
    (fileMsgs : List MidiMsg) (tracks : List (List ℕ)) :
    (split_midi_model splitTimes tpb fileMsgs tracks).map Prod.fst =
      List.range' 1
        ((splitPointsTicks splitTimes (build_tempo_map tpb fileMsgs)
            tpb).length - 1) := by
  simp only [split_midi_model, List.map_map]
  have h : (Prod.fst ∘ fun i =>
      ((i + 1 : ℕ),
        tracks.map (fun tr =>
          (assignTrack
              (splitPointsTicks splitTimes (build_tempo_map tpb fileMsgs) tpb)
              (absPositions tr)).getD i []))) = fun i => i + 1 := rfl
  rw [h, List.range'_eq_map_range]
  apply List.map_congr_left
  intro a _
  omega

/- ### C9 amended: construction succeeds for non-positive ticks-per-beat -/

/-- C9 amended: `build_tempo_map` performs no ticks-per-beat validation and
has no `MalformedTempoData` failure path: for every strictly negative
ticks-per-beat (where the Python code also runs without error) it returns a
(nonempty) tempo map just as for positive values.  (For ticks-per-beat 0
the Python code raises an untyped `ZeroDivisionError` as soon as a message
is processed — not `MalformedTempoData` — and succeeds on an empty
stream.) -/
theorem build_tempo_map_total_on_negative (tpb : ℚ) (msgs : List MidiMsg)
    (_htpb : tpb < 0) : build_tempo_map tpb msgs ≠ [] :=
  buildTempoMapGo_ne_nil tpb msgs 0 0 500000

/-- C9 witness: ticks-per-beat −1 is accepted. -/
theorem build_tempo_map_total_on_negative_witness :
    (-1 : ℚ) < 0 ∧ build_tempo_map (-1) [MidiMsg.other 7] ≠ [] :=
  ⟨by norm_num, build_tempo_map_total_on_negative (-1) [MidiMsg.other 7]
    (by norm_num)⟩

end MidiSplit

namespace MidiSplit

/- ### C7 amended: every segment window, the last included, is half-open -/

theorem sorted_takeWhile_eq_filter :
    ∀ (l : List ℤ), List.Sorted (· ≤ ·) l → ∀ (c : ℤ),
      l.takeWhile (fun a => decide (a < c)) =
        l.filter (fun a => decide (a < c)) := by
  intro l
  induction l with
  | nil => intro _ c; rfl
  | cons x xs ih =>
    intro hl c
    by_cases h : x < c
    · rw [List.takeWhile_cons, List.filter_cons, if_pos (decide_eq_true h),
        if_pos (decide_eq_true h), ih (List.sorted_cons.1 hl).2 c]
    · rw [List.takeWhile_cons, List.filter_cons,
        if_neg (by simpa using h), if_neg (by simpa using h)]
      symm
      rw [List.filter_eq_nil_iff]
      intro a ha
      have hxa : x ≤ a := List.rel_of_sorted_cons hl a ha
      simp only [decide_eq_true_eq]
      omega

theorem mem_dropWhile_ge (l : List ℤ) (hl : List.Sorted (· ≤ ·) l) (c : ℤ) :
    ∀ a ∈ l.dropWhile (fun a => decide (a < c)), c ≤ a := by
  intro a ha
  have hs : List.Sorted (· ≤ ·) (l.dropWhile (fun a => decide (a < c))) :=
    List.Pairwise.sublist (List.dropWhile_sublist _) hl
  cases hdw : l.dropWhile (fun a => decide (a < c)) with
  | nil => rw [hdw] at ha; simp at ha
  | cons h t =>
    rw [hdw] at ha hs
    have hhc : ¬ (h < c) := by
      have := head?_dropWhile_false (fun a => decide (a < c)) l h
      rw [hdw] at this
      simpa using this (by simp)
    rcases List.mem_cons.1 ha with rfl | hat
    · omega
    · have := List.rel_of_sorted_cons hs a hat
      omega

theorem sorted_head_le_getD (b : ℤ) (t : List ℤ)
    (hs : List.Sorted (· ≤ ·) (b :: t)) :
    ∀ k, k < (b :: t).length → b ≤ (b :: t).getD k 0 := by
  intro k hk
  cases k with
  | zero => simp
  | succ k' =>
    rw [List.getD_cons_succ]
    have hk' : k' < t.length := by simpa using hk
    rw [List.getD_eq_getElem t 0 hk']
    exact List.rel_of_sorted_cons hs _ (List.get_mem t k' hk')

theorem segment_windows_aux :
    ∀ (bs l : List ℤ) (k : ℕ), List.Sorted (· ≤ ·) bs →
      List.Sorted (· ≤ ·) l → (∀ a ∈ l, bs.headI ≤ a) →
      k + 1 < bs.length →
      (segmentContents bs l).getD k [] =
        l.filter (fun a =>
          decide (bs.getD k 0 ≤ a ∧ a < bs.getD (k + 1) 0)) := by
  intro bs
  induction bs with
  | nil => intro l k _ _ _ hk; simp at hk
  | cons b0 tl ih =>
    cases tl with
    | nil => intro l k _ _ _ hk; simp at hk
    | cons b1 rest =>
      intro l k hbs hl h0 hk
      cases k with
      | zero =>
        simp only [segmentContents, List.getD_cons_zero, List.getD_cons_succ]
        rw [sorted_takeWhile_eq_filter l hl b1]
        apply List.filter_congr
        intro a ha
        have hb0a : b0 ≤ a := by simpa using h0 a ha
        rw [decide_eq_decide]
        exact ⟨fun h => ⟨hb0a, h⟩, fun h => h.2⟩
      | succ k' =>
        simp only [segmentContents, List.getD_cons_succ]
        have htl : List.Sorted (· ≤ ·) (b1 :: rest) :=
          (List.sorted_cons.1 hbs).2
        have hdr : List.Sorted (· ≤ ·)
            (l.dropWhile (fun a => decide (a < b1))) :=
          List.Pairwise.sublist (List.dropWhile_sublist _) hl
        have hdr0 : ∀ a ∈ l.dropWhile (fun a => decide (a < b1)),
            (b1 :: rest).headI ≤ a := by
          intro a ha
          simpa using mem_dropWhile_ge l hl b1 a ha
        have hk' : k' + 1 < (b1 :: rest).length := by
          simpa using hk
        rw [ih (l.dropWhile (fun a => decide (a < b1))) k' htl hdr hdr0 hk']
        simp only [List.getD_cons_succ]
        have hsplit : l.filter (fun a =>
            decide ((b1 :: rest).getD k' 0 ≤ a ∧ a < rest.getD k' 0)) =
            (l.takeWhile (fun a => decide (a < b1))).filter (fun a =>
              decide ((b1 :: rest).getD k' 0 ≤ a ∧ a < rest.getD k' 0)) ++
            (l.dropWhile (fun a => decide (a < b1))).filter (fun a =>
              decide ((b1 :: rest).getD k' 0 ≤ a ∧ a < rest.getD k' 0)) := by
          conv_lhs =>
            rw [← List.takeWhile_append_dropWhile
              (fun a => decide (a < b1)) l]
          rw [List.filter_append]
        have htkf : (l.takeWhile (fun a => decide (a < b1))).filter (fun a =>
            decide ((b1 :: rest).getD k' 0 ≤ a ∧ a < rest.getD k' 0)) = [] := by
          rw [List.filter_eq_nil_iff]
          intro a ha
          have halt : a < b1 := by
            simpa using List.mem_takeWhile_imp ha
          have hble : b1 ≤ (b1 :: rest).getD k' 0 := by
            apply sorted_head_le_getD b1 rest htl
            omega
          simp only [decide_eq_true_eq]
          omega
        rw [hsplit, htkf, List.nil_append]

/-- C7 amended: every segment window is half-open, the last one included:
for sorted boundaries and a sorted track whose events all lie at or after
the first boundary, segment `k` receives exactly the events with
`b_k ≤ absolutePosition < b_{k+1}` — an event whose position equals the
final boundary is excluded from every segment. -/
theorem segment_windows_half_open (bs l : List ℤ) (k : ℕ)
    (hbs : List.Sorted (· ≤ ·) bs) (hl : List.Sorted (· ≤ ·) l)
    (h0 : ∀ a ∈ l, bs.headI ≤ a) (hk : k + 1 < bs.length) :
    (segmentContents bs l).getD k [] =
      l.filter (fun a =>
        decide (bs.getD k 0 ≤ a ∧ a < bs.getD (k + 1) 0)) :=
  segment_windows_aux bs l k hbs hl h0 hk

/-- C7 witness: boundaries `[0, 960, 1920]`, track `[0, 500, 960, 1920]`;
segment 1 (the last) receives exactly the events in `[960, 1920)` — the
event at the final boundary 1920 is excluded. -/
theorem segment_windows_half_open_witness :
    List.Sorted (· ≤ ·) ([0, 960, 1920] : List ℤ) ∧
      List.Sorted (· ≤ ·) ([0, 500, 960, 1920] : List ℤ) ∧
      (∀ a ∈ ([0, 500, 960, 1920] : List ℤ),
        ([0, 960, 1920] : List ℤ).headI ≤ a) ∧
      (1 : ℕ) + 1 < ([0, 960, 1920] : List ℤ).length ∧
      (segmentContents [0, 960, 1920] [0, 500, 960, 1920]).getD 1 [] =
        ([0, 500, 960, 1920] : List ℤ).filter (fun a =>
          decide (([0, 960, 1920] : List ℤ).getD 1 0 ≤ a ∧
            a < ([0, 960, 1920] : List ℤ).getD 2 0)) :=
  ⟨by decide, by decide, by decide, by decide,
    segment_windows_half_open [0, 960, 1920] [0, 500, 960, 1920] 1
      (by decide) (by decide) (by decide) (by decide)⟩

end MidiSplit

namespace MidiSplit

/- ### C5 amended: counts agree iff the split-point list is duplicate-free -/

/-- C5 amended: when the score triggers no 2048th-note bail-out and the
computed split-point list contains no duplicates, the two splitters write
the same number of segments.  (When the list has duplicates, `split_midi`
— which deduplicates — writes fewer, and nothing is reported: the
counterexample.) -/
theorem segment_counts_agree_of_nodup (score : ScoreModel) (k : ℕ) (tpb : ℚ)
    (fileMsgs : List MidiMsg) (tracks : List (List ℕ))
    (h2048 : "2048th" ∉ score.noteDurationTypes)
    (hnd : (get_precise_split_points k score.measures
        score.tempoChanges).Nodup) :
    ((process_pair score k tpb fileMsgs tracks).1.2).length =
      ((process_pair score k tpb fileMsgs tracks).2).length := by
  simp only [process_pair, split_musicxml_model, split_midi_model]
  have hany : score.noteDurationTypes.any (fun s => s == "2048th") = false := by
    rw [List.any_eq_false]
    intro x hx
    simp only [beq_iff_eq]
    intro heq
    exact h2048 (heq ▸ hx)
  rw [if_neg (by simp [hany])]
  simp only [List.length_map, List.length_range, splitPointsTicks,
    sortedUnique]
  rw [(List.perm_insertionSort (· ≤ ·) _).length_eq,
    List.dedup_eq_self.2 hnd]

/-- C5 amended witness: a 1-measure score, 4 measures per segment: split
points `[0, 1/2]` are duplicate-free and both splitters write 1 segment. -/
theorem segment_counts_agree_witness :
    ("2048th" ∉ (ScoreModel.mk [] [(0, 1)] []).noteDurationTypes) ∧
      (get_precise_split_points 4 (ScoreModel.mk [] [(0, 1)] []).measures
        (ScoreModel.mk [] [(0, 1)] []).tempoChanges).Nodup ∧
      ((process_pair (ScoreModel.mk [] [(0, 1)] []) 4 480 [] [[0]]).1.2).length =
        ((process_pair (ScoreModel.mk [] [(0, 1)] []) 4 480 [] [[0]]).2).length :=
  ⟨by simp,
    by norm_num [get_precise_split_points, gpspGo, applyTempo,
      sortTempoChanges, List.insertionSort, List.nodup_cons],
    segment_counts_agree_of_nodup (ScoreModel.mk [] [(0, 1)] []) 4 480 [] [[0]]
      (by simp)
      (by norm_num [get_precise_split_points, gpspGo, applyTempo,
        sortTempoChanges, List.insertionSort, List.nodup_cons])⟩

/- ### C10: the 2048th-note bail-out -/

/-- C10: for every score containing a note or rest of duration type
`2048th`, the notation side of `process_pair` prints the warning and writes
no segment, while `split_midi` still runs on the paired MIDI file: whenever
the (deduplicated, sorted) split points contain at least two distinct
values, the pair ends up with MIDI segments but no notation segments. -/
theorem bail_out_2048th (score : ScoreModel) (k : ℕ) (tpb : ℚ)
    (fileMsgs : List MidiMsg) (tracks : List (List ℕ))
    (h : "2048th" ∈ score.noteDurationTypes)
    (hd : 2 ≤ (sortedUnique (get_precise_split_points k score.measures
        score.tempoChanges)).length) :
    (process_pair score k tpb fileMsgs tracks).1.2 = [] ∧
      (process_pair score k tpb fileMsgs tracks).1.1 ≠ [] ∧
      (process_pair score k tpb fileMsgs tracks).2 ≠ [] := by
  have hany : score.noteDurationTypes.any (fun s => s == "2048th") = true := by
    rw [List.any_eq_true]
    exact ⟨"2048th", h, by simp⟩
  refine ⟨?_, ?_, ?_⟩
  · simp [process_pair, split_musicxml_model, hany]
  · simp [process_pair, split_musicxml_model, hany]
  · apply List.ne_nil_of_length_pos
    simp only [process_pair, split_midi_model, List.length_map,
      List.length_range, splitPointsTicks]
    omega

/-- C10 witness: a 1-measure score carrying a 2048th note: no notation
segments, one warning, and one MIDI segment. -/
theorem bail_out_2048th_witness :
    ("2048th" ∈ (ScoreModel.mk ["2048th"] [(0, 1)] []).noteDurationTypes) ∧
      2 ≤ (sortedUnique (get_precise_split_points 4
          (ScoreModel.mk ["2048th"] [(0, 1)] []).measures
          (ScoreModel.mk ["2048th"] [(0, 1)] []).tempoChanges)).length ∧
      (process_pair (ScoreModel.mk ["2048th"] [(0, 1)] []) 4 480 [] [[0]]).1.2 = [] ∧
      (process_pair (ScoreModel.mk ["2048th"] [(0, 1)] []) 4 480 [] [[0]]).1.1 ≠ [] ∧
      (process_pair (ScoreModel.mk ["2048th"] [(0, 1)] []) 4 480 [] [[0]]).2 ≠ [] :=
  ⟨by simp,
    by norm_num [get_precise_split_points, gpspGo, applyTempo,
      sortTempoChanges, sortedUnique, List.insertionSort, List.orderedInsert,
      List.dedup_cons_of_not_mem],
    (bail_out_2048th (ScoreModel.mk ["2048th"] [(0, 1)] []) 4 480 [] [[0]]
        (by simp)
        (by norm_num [get_precise_split_points, gpspGo, applyTempo,
          sortTempoChanges, sortedUnique, List.insertionSort,
          List.orderedInsert, List.dedup_cons_of_not_mem])).1,
    (bail_out_2048th (ScoreModel.mk ["2048th"] [(0, 1)] []) 4 480 [] [[0]]
        (by simp)
        (by norm_num [get_precise_split_points, gpspGo, applyTempo,
          sortTempoChanges, sortedUnique, List.insertionSort,
          List.orderedInsert, List.dedup_cons_of_not_mem])).2.1,
    (bail_out_2048th (ScoreModel.mk ["2048th"] [(0, 1)] []) 4 480 [] [[0]]
        (by simp)
        (by norm_num [get_precise_split_points, gpspGo, applyTempo,
          sortTempoChanges, sortedUnique, List.insertionSort,
          List.orderedInsert, List.dedup_cons_of_not_mem])).2.2⟩

end MidiSplit
